import Mathlib

/-!
Shallow embedding of the sparsity library core (`sparsity/sparse_frame.py`
and `sparsity/dask/core.py`).  A `SparseFrame` is a CSR matrix modelled as a
list of rows of integers together with a row label list and a column label
list; the physical matrix carries one extra all-zero sentinel row at the end
(the sentinel-row trick).  Label indexes are modelled for the unique-label
case, which is the Label Index invariant of the data model.
-/

namespace Sparsity

/-- Matrix as a list of rows (each row a list of integer entries): the shallow
model of a scipy CSR matrix. -/
abbrev Mat := List (List Int)

/-- Row of `k` zeros, as appended by `_init_csr` for the sentinel. -/
def zeroRow (k : Nat) : List Int := List.replicate k 0

/-- Width of a matrix, read off its first row (scipy keeps the width in the
shape; for the matrices built by the operations modelled here the two agree). -/
def ncols (m : Mat) : Nat := (m.headD []).length

/-- Column `j` of a matrix. -/
def colOf (m : Mat) (j : Nat) : List Int := m.map (fun r => r.getD j 0)

/-- Transpose of a matrix with `k` columns (numpy reads the width off the
shape, so it is passed explicitly). -/
def transposeN (k : Nat) (m : Mat) : Mat := (List.range k).map (colOf m)

/-- numpy-style transpose with the width read from the matrix itself. -/
def transposeT (m : Mat) : Mat := transposeN (ncols m) m

/-- Dot product of two rows. -/
def dot (u v : List Int) : Int := (List.zipWith (fun a b => a * b) u v).sum

/-- Product `a · b` where `b` has `bcols` columns (numpy `dot`). -/
def matmulN (a b : Mat) (bcols : Nat) : Mat :=
  a.map (fun r => (List.range bcols).map (fun j => dot r (colOf b j)))

/-- Elementwise sum of two equal-shaped matrices (`a_new._binopt(b_new, op='_plus_')`). -/
def elemAdd (a b : Mat) : Mat :=
  List.zipWith (fun r s => List.zipWith (fun x y => x + y) r s) a b

/-- Position of label `x` in a label list (pandas `get_indexer` for a unique
index); `none` models pandas' `-1` for an absent label. -/
def findPos (x : Int) : List Int → Option Nat
  | [] => none
  | y :: ys => if y = x then some 0 else (findPos x ys).map (fun i => i + 1)

/-- Python slice `l[a:b]` (with clamping semantics). -/
def pySlice (a b : Nat) (l : List α) : List α := (l.take b).drop a

/-- Positional range index `0..n-1`, pandas `_default_index(n)`. -/
def defaultIndex (n : Nat) : List Int := (List.range n).map (fun i => (i : Int))

/-- np.argsort: the positions `0..l.length-1` reordered so that the values
they point at are ascending (modelled by a stable insertion sort; tie order
cannot influence any result proved here). -/
def argsort (l : List Int) : List Nat :=
  List.insertionSort (fun i j => l.getD i 0 ≤ l.getD j 0) (List.range l.length)

/-- np.unique: the distinct values of `l` in increasing order. -/
def uniqueSorted (l : List Int) : List Int :=
  ((argsort l).map (fun i => l.getD i 0)).dedup

/-- Error classes of the Python code paths modelled here. -/
inductive PyErr where
  | assertionError
  | valueError
  | attributeError
  deriving DecidableEq, Repr

/-- Sparse frame: physical CSR data (the logical rows plus the sentinel zero
row appended by `_init_csr`), a row label index and a column label index. -/
structure SparseFrame where
  _data : Mat
  _index : List Int
  _columns : List Int
  deriving DecidableEq, Repr

/-- `SparseFrame.__init__`: missing labels default to positional ranges and
`_init_csr` appends the sentinel zero row below the logical data. -/
def SparseFrame.make (data : Mat) (index : Option (List Int))
    (columns : Option (List Int)) : SparseFrame :=
  { _data := data ++ [zeroRow (ncols data)]
    _index := index.getD (defaultIndex data.length)
    _columns := columns.getD (defaultIndex (ncols data)) }

/-- The `data` property: every physical row but the sentinel (`self._data[:-1,:]`). -/
def SparseFrame.data (sf : SparseFrame) : Mat := sf._data.dropLast

/-- Well-formedness: label lengths match the matrix dimensions and the last
physical row is the all-zero sentinel - the storage invariant of every frame
the constructor builds from consistent inputs. -/
def WF (sf : SparseFrame) : Prop :=
  sf._data.length = sf._index.length + 1 ∧
  (∀ r ∈ sf._data, r.length = sf._columns.length) ∧
  sf._data.getLast?.getD [] = zeroRow sf._columns.length

instance (sf : SparseFrame) : Decidable (WF sf) := by
  unfold WF; infer_instance

/-- Sentinel invariant observable: every entry of the last physical row is 0. -/
def sentinelZero (sf : SparseFrame) : Prop :=
  ∀ x ∈ sf._data.getLast?.getD [], x = 0

instance (sf : SparseFrame) : Decidable (sentinelZero sf) := by
  unfold sentinelZero; infer_instance

/-- pandas `a_idx.join(b_idx, return_indexers=True)` with the DEFAULT
`how='left'` on unique indexes: the joined index is the left index itself,
the left indexer is identity (`None`), and the right indexer holds, for each
left label, its position in the right index or `none` (pandas' -1) when the
label is absent there. -/
def leftJoin (aIdx bIdx : List Int) :
    List Int × Option (List (Option Nat)) × Option (List (Option Nat)) :=
  (aIdx, none, some (aIdx.map (fun x => findPos x bIdx)))

/-- pandas `a_idx.join(b_idx, how='outer', return_indexers=True)` on unique
monotonic indexes: sorted union plus positional indexers on both sides. -/
def outerJoin (aIdx bIdx : List Int) :
    List Int × Option (List (Option Nat)) × Option (List (Option Nat)) :=
  let j := uniqueSorted (aIdx ++ bIdx)
  (j, some (j.map (fun x => findPos x aIdx)), some (j.map (fun x => findPos x bIdx)))

/-- Fancy-index rows of `m` at `ixs`: `none` is pandas' -1, which python
resolves to the LAST physical row - the sentinel zero row. -/
def gatherRows (m : Mat) (ixs : List (Option Nat)) : Mat :=
  ixs.map (fun i => match i with
    | some i => m.getD i []
    | none => m.getLast?.getD [])

/-- `a[lidx]`: a `None` indexer slices the sentinel off (`a[:-1,:]`), an
indexer array gathers rows (absent labels resolving to the sentinel row). -/
def alignGather (m : Mat) (ixs : Option (List (Option Nat))) : Mat :=
  match ixs with
  | none => m.dropLast
  | some l => gatherRows m l

/-- Shape `(rows, cols)` of a matrix. -/
def matShape (m : Mat) : Nat × Nat := (m.length, ncols m)

/-- `_aligned_csr_elop(a, b, a_idx, b_idx, op='_plus_')`, the alignment helper
`add` uses.  The pandas index join here is called WITHOUT `how`, so it uses
the default `how='left'`.  The guard models `assert b_new.shape == a_new.shape`. -/
def _aligned_csr_elop (a b : Mat) (aIdx bIdx : List Int) :
    Except PyErr (Mat × List Int) :=
  let j := leftJoin aIdx bIdx
  let aNew := alignGather a j.2.1
  let bNew := alignGather b j.2.2
  if matShape aNew = matShape bNew then
    Except.ok (elemAdd aNew bNew, j.1)
  else Except.error PyErr.assertionError

/-- `SparseFrame.add`: asserts equal column labels, aligns the rows with
`_aligned_csr_elop` and rebuilds a frame from the summed data. -/
def SparseFrame.add (sf other : SparseFrame) : Except PyErr SparseFrame :=
  if sf._columns = other._columns then
    match _aligned_csr_elop sf._data other._data sf._index other._index with
    | Except.ok (d, ni) => Except.ok (SparseFrame.make d (some ni) (some sf._columns))
    | Except.error e => Except.error e
  else Except.error PyErr.assertionError

/-- `_matrix_join(a, b, a_idx, b_idx, how='outer')`: align both matrices to
the outer-joined index and concatenate along columns; scipy `hstack` raises
ValueError when the two row counts disagree. -/
def _matrix_join (a b : Mat) (aIdx bIdx : List Int) :
    Except PyErr (Mat × List Int) :=
  let j := outerJoin aIdx bIdx
  let aNew := alignGather a j.2.1
  let bNew := alignGather b j.2.2
  if aNew.length = bNew.length then
    Except.ok ((aNew.zip bNew).map (fun p => p.1 ++ p.2), j.1)
  else Except.error PyErr.valueError

/-- `SparseFrame.join(other, axis=0)`: the fast path vstacks when the column
labels agree pointwise; the general path runs `_matrix_join` on the
TRANSPOSED physical matrices and then evaluates `data.T.to_csr()` - scipy
csr matrices have `tocsr` but no `to_csr`, so that branch raises
AttributeError before building any frame. -/
def SparseFrame.joinAxis0 (sf other : SparseFrame) : Except PyErr SparseFrame :=
  if other._columns = sf._columns then
    Except.ok (SparseFrame.make (sf.data ++ other.data)
      (some (sf._index ++ other._index)) (some sf._columns))
  else
    match _matrix_join (transposeT sf._data) (transposeT other._data)
        sf._columns other._columns with
    | Except.ok _ => Except.error PyErr.attributeError
    | Except.error e => Except.error e

/-- Row of `k` entries with a single 1 at position `c` (one coo entry). -/
def unitRow (k c : Nat) : List Int :=
  (List.range k).map (fun j => if j = c then 1 else 0)

/-- One row of the group membership matrix: a single 1 (one coo entry) at the
category code of `v`, i.e. at `v`'s position in the category list (a code of
-1, impossible when the categories are the distinct key values, would leave
the row zero). -/
def groupRow (cats : List Int) (v : Int) : List Int :=
  match findPos v cats with
  | some c => unitRow cats.length c
  | none => zeroRow cats.length

/-- `_create_group_matrix(group_idx)`: categories are the sorted distinct key
values; row `i` carries a single 1 in the column of `group_idx[i]`'s
category code. -/
def _create_group_matrix (group_idx : List Int) : Mat :=
  let cats := uniqueSorted group_idx
  group_idx.map (fun v => groupRow cats v)

/-- Core of `SparseFrame.groupby`: argsort the keys, gather the physical rows
in key order, build the membership matrix `G` and compute `(Mᵀ·G)ᵀ`; the
result frame is indexed by `np.unique(by)` and keeps the input's columns. -/
def groupbyCore (sf : SparseFrame) (b : List Int) : SparseFrame :=
  let gidx := argsort b
  let bs := gidx.map (fun i => b.getD i 0)
  let gm := _create_group_matrix bs
  let g := (uniqueSorted bs).length
  let ms := gidx.map (fun i => sf._data.getD i [])
  let grouped := transposeN g (matmulN (transposeN (ncols sf._data) ms) gm g)
  SparseFrame.make grouped (some (uniqueSorted b)) (some sf._columns)

/-- `SparseFrame.groupby(by)`: an explicit key array must match the logical
row count (`assert len(by) == self.data.shape[0]`); `by=None` (or the string
marker) groups by the frame's own row labels. -/
def SparseFrame.groupby (sf : SparseFrame) (key : Option (List Int)) :
    Except PyErr SparseFrame :=
  match key with
  | some b =>
      if b.length = sf.data.length then Except.ok (groupbyCore sf b)
      else Except.error PyErr.assertionError
  | none => Except.ok (groupbyCore sf sf._index)

/-- `SparseFrame.sort_index`: argsort the row labels and gather physical rows
and labels by it; the columns argument is NOT passed on to the constructor,
so the result's column index resets to the default range. -/
def SparseFrame.sort_index (sf : SparseFrame) : SparseFrame :=
  let p := argsort sf._index
  SparseFrame.make (p.map (fun i => sf._data.getD i []))
    (some (p.map (fun i => sf._index.getD i 0))) none

/-- `SparseFrame._slice(sliceobj)` for `sliceobj = slice(a, b)`: slice the
physical rows and the labels identically (columns reset to default). -/
def SparseFrame._slice (sf : SparseFrame) (a b : Nat) : SparseFrame :=
  SparseFrame.make (pySlice a b sf._data) (some (pySlice a b sf._index)) none

/-- `SparseFrame._ixs(key, axis=0)` for a scalar position: one physical row,
the label wrapped into a singleton index (columns reset to default). -/
def SparseFrame._ixs (sf : SparseFrame) (i : Nat) : SparseFrame :=
  SparseFrame.make [sf._data.getD i []] (some [sf._index.getD i 0]) none

/-- `SparseFrame.__setitem__(key, value)`: append `value` plus a 0 for the
sentinel as one new column; scipy `hstack` raises ValueError when the row
counts disagree.  `self._columns.append(pd.Index([key]))` in the source
DISCARDS its result (pandas `Index.append` returns a new index), so the
stored column index is left unchanged. -/
def SparseFrame.setitem (sf : SparseFrame) (_key : Int) (value : List Int) :
    Except PyErr SparseFrame :=
  let val := value ++ [0]
  if val.length = sf._data.length then
    Except.ok { _data := (sf._data.zip val).map (fun p => p.1 ++ [p.2])
                _index := sf._index
                _columns := sf._columns }
  else Except.error PyErr.valueError

/-- Error raised by `csr_one_hot_series`, naming the offending values. -/
inductive OneHotErr where
  | unknownCategories (vals : List Int)
  deriving DecidableEq, Repr

/-- `csr_one_hot_series(s, categories)`: categorical codes against the fixed
vocabulary; any unknown value raises ValueError naming the distinct offending
values (`np.unique(s[~mask])`), otherwise the coo matrix gets one 1 per row
at the code's column. -/
def csr_one_hot_series (s : List Int) (categories : List Int) :
    Except OneHotErr Mat :=
  let codes := s.map (fun v => findPos v categories)
  if codes.all (fun c => c.isSome) then
    Except.ok (codes.map (fun c => unitRow categories.length (c.getD 0)))
  else
    Except.error (OneHotErr.unknownCategories
      (uniqueSorted (s.filter (fun v => (findPos v categories).isNone))))

/-- Modelled from the spec: `sp.SparseFrame.vstack` is referenced by
`dask/core.py` but its definition is not among the given files; per the spec
("merging each group via stacking", join along axis 0) it vertically
concatenates same-column frames - rows and row labels concatenated in order,
columns taken from the first operand. -/
def SparseFrame.vstack (fs : List SparseFrame) : SparseFrame :=
  SparseFrame.make (fs.flatMap SparseFrame.data)
    (some (fs.flatMap (fun f => f._index)))
    (some ((fs.headD (SparseFrame.make [] none none))._columns))

/-- Floor of the base-2 logarithm by structural recursion on a fuel bound
(kernel-reducible, unlike the library's well-founded version). -/
def log2fuel : Nat → Nat → Nat
  | 0, _ => 0
  | fuel + 1, n => if 2 ≤ n then log2fuel fuel (n / 2) + 1 else 0

def log2floor (n : Nat) : Nat := log2fuel n n

/-- Round `a / b` to the nearest integer, ties to even - the rounding step
of IEEE binary64 arithmetic. -/
def roundNearestEven (a b : Nat) : Nat :=
  let n0 := a / b
  let r := a % b
  if 2 * r < b then n0
  else if b < 2 * r then n0 + 1
  else if n0 % 2 = 0 then n0 else n0 + 1

/-- The ratio `a / b ≥ 1` rounded to the nearest IEEE binary64 double (what
a CPython float division computes), returned as a dyadic pair `(m, e)`
denoting `m·2^e` with a 53-bit significand (no overflow or subnormals occur
in the ranges used here). -/
def fl64 (a b : Nat) : Nat × Int :=
  let E := log2floor (a / b)
  if E ≤ 52 then (roundNearestEven (a * 2 ^ (52 - E)) b, (E : Int) - 52)
  else (roundNearestEven a (b * 2 ^ (E - 52)), (E : Int) - 52)

/-- CPython `int(i * (old / n))` in IEEE binary64 arithmetic: `old / n` is
the correctly rounded double ratio, its product with the (exactly
representable) integer `i` is rounded again, and `int` truncates toward
zero.  This is the boundary arithmetic of `repartition_npartitions`, where
`npartitions_ratio = df.npartitions / npartitions` is a Python float. -/
def float_boundary (old n i : Nat) : Nat :=
  if i = 0 then 0
  else
    let r := fl64 old n
    let p := if 0 ≤ r.2 then fl64 (i * r.1 * 2 ^ r.2.toNat) 1
      else fl64 (i * r.1) (2 ^ (-r.2).toNat)
    if 0 ≤ p.2 then p.1 * 2 ^ p.2.toNat
    else p.1 / 2 ^ (-p.2).toNat

/-- Boundaries `int(new_partition_index * npartitions_ratio)` of the shrink
path of `repartition_npartitions`; the arithmetic is IEEE binary64 (Python
float), which can fall short of the exact `floor(i * old / n)`. -/
def new_partitions_boundaries (old n : Nat) : List Nat :=
  (List.range (n + 1)).map (fun i => float_boundary old n i)

/-- Shrink path of `repartition_npartitions` (`npartitions < df.npartitions`):
new partition `j` is the vstack of the old partitions with positions in
`[boundaries[j], boundaries[j+1])`. -/
def repartition_npartitions_shrink (parts : List SparseFrame) (n : Nat) :
    List SparseFrame :=
  let bs := new_partitions_boundaries parts.length n
  (List.range n).map (fun j =>
    SparseFrame.vstack (pySlice (bs.getD j 0) (bs.getD (j + 1) 0) parts))

/-- Entrywise sum of a list of rows, over `k` columns. -/
def sumRowsK (k : Nat) (rows : Mat) : List Int :=
  (List.range k).map (fun c => (rows.map (fun r => r.getD c 0)).sum)

/-- The rows of `rows` whose parallel key in `b` equals `u`. -/
def rowsWithKey (b : List Int) (rows : Mat) (u : Int) : Mat :=
  ((b.zip rows).filter (fun p => p.1 == u)).map Prod.snd

/-! ### Basic lemmas about the constructor and accessors -/

theorem make_data (d : Mat) (i : Option (List Int)) (c : Option (List Int)) :
    (SparseFrame.make d i c).data = d := by
  simp [SparseFrame.make, SparseFrame.data]

theorem make_index (d : Mat) (i : List Int) (c : Option (List Int)) :
    (SparseFrame.make d (some i) c)._index = i := rfl

theorem make_columns (d : Mat) (i : Option (List Int)) (c : List Int) :
    (SparseFrame.make d i (some c))._columns = c := rfl

theorem make_columns_none (d : Mat) (i : Option (List Int)) :
    (SparseFrame.make d i none)._columns = defaultIndex (ncols d) := rfl

theorem make_phys (d : Mat) (i : Option (List Int)) (c : Option (List Int)) :
    (SparseFrame.make d i c)._data = d ++ [zeroRow (ncols d)] := rfl

theorem make_phys_length (d : Mat) (i : Option (List Int)) (c : Option (List Int)) :
    (SparseFrame.make d i c)._data.length = d.length + 1 := by
  simp [SparseFrame.make]

theorem make_last (d : Mat) (i : Option (List Int)) (c : Option (List Int)) :
    (SparseFrame.make d i c)._data.getLast?.getD [] = zeroRow (ncols d) := by
  simp [SparseFrame.make]

theorem sentinelZero_make (d : Mat) (i : Option (List Int)) (c : Option (List Int)) :
    sentinelZero (SparseFrame.make d i c) := by
  intro x hx
  rw [make_last] at hx
  exact ((List.mem_replicate).mp hx).2

theorem zeroRow_length (k : Nat) : (zeroRow k).length = k := by
  simp [zeroRow]

/-- Physical row `i` of a well-formed frame is logical row `i`, for `i` below
the logical row count. -/
theorem phys_getD_eq_data_getD (sf : SparseFrame) (i : Nat)
    (hi : i < sf.data.length) :
    sf._data.getD i [] = sf.data.getD i [] := by
  unfold SparseFrame.data at *
  rcases sf with ⟨d, ix, c⟩
  simp only at *
  induction d generalizing i with
  | nil => simp [List.dropLast] at hi
  | cons r rest ih =>
    cases rest with
    | nil => simp at hi
    | cons s t =>
      cases i with
      | zero => rfl
      | succ j =>
        simpa using ih j (by simpa using hi)

theorem data_length_of_wf (sf : SparseFrame) (h : WF sf) :
    sf.data.length = sf._index.length := by
  unfold SparseFrame.data
  rw [List.length_dropLast, h.1]
  rfl

/-- Every logical row of a well-formed frame has the column count as width. -/
theorem data_row_length_of_wf (sf : SparseFrame) (h : WF sf) {r : List Int}
    (hr : r ∈ sf.data) : r.length = sf._columns.length :=
  h.2.1 r (List.dropLast_sublist _ |>.mem hr)

/-- The width read off a well-formed frame's physical matrix is the column
label count (the physical matrix contains at least the sentinel row). -/
theorem ncols_phys_of_wf (sf : SparseFrame) (h : WF sf) :
    ncols sf._data = sf._columns.length := by
  rcases sf with ⟨d, ix, c⟩
  obtain ⟨h1, h2, _⟩ := h
  simp only at *
  cases d with
  | nil => simp at h1
  | cons r t =>
    simpa [ncols] using h2 r (by simp)

/-! ### findPos -/

theorem findPos_some_lt {x : Int} {l : List Int} {i : Nat}
    (h : findPos x l = some i) : i < l.length := by
  induction l generalizing i with
  | nil => simp [findPos] at h
  | cons y ys ih =>
    by_cases hxy : y = x
    · simp [findPos, hxy] at h
      simp only [List.length_cons]
      omega
    · simp [findPos, hxy] at h
      rcases h with ⟨j, hj, rfl⟩
      have := ih hj
      simpa using this

theorem findPos_some_getD {x : Int} {l : List Int} {i : Nat}
    (h : findPos x l = some i) : l.getD i 0 = x := by
  induction l generalizing i with
  | nil => simp [findPos] at h
  | cons y ys ih =>
    by_cases hxy : y = x
    · simp [findPos, hxy] at h
      subst h
      simpa using hxy
    · simp [findPos, hxy] at h
      rcases h with ⟨j, hj, rfl⟩
      simpa using ih hj

theorem findPos_isSome_iff_mem {x : Int} {l : List Int} :
    (findPos x l).isSome ↔ x ∈ l := by
  induction l with
  | nil => simp [findPos]
  | cons y ys ih =>
    simp only [findPos, List.mem_cons]
    by_cases hxy : y = x
    · simp [hxy]
    · rw [if_neg hxy]
      rw [show ∀ o : Option Nat, (o.map (fun i => i + 1)).isSome = o.isSome by
        intro o; cases o <;> rfl]
      rw [ih]
      constructor
      · exact Or.inr
      · intro h
        rcases h with h | h
        · exact absurd h.symm hxy
        · exact h

theorem findPos_eq_none_iff {x : Int} {l : List Int} :
    findPos x l = none ↔ x ∉ l := by
  rw [← findPos_isSome_iff_mem]
  rcases findPos x l with _ | i <;> simp

/-- On a duplicate-free list, the position of the value at `i` is `i`. -/
theorem findPos_of_nodup {l : List Int} (hnd : l.Nodup) {i : Nat}
    (hi : i < l.length) : findPos (l.getD i 0) l = some i := by
  induction l generalizing i with
  | nil => simp at hi
  | cons y ys ih =>
    cases i with
    | zero => simp [findPos]
    | succ j =>
      have hj : j < ys.length := by simpa using hi
      have hys : (ys.getD j 0) ∈ ys := by
        rw [List.getD_eq_getElem _ _ hj]
        exact List.getElem_mem hj
      have hne : y ≠ ys.getD j 0 := by
        intro hcontra
        exact (List.nodup_cons.mp hnd).1 (hcontra ▸ hys)
      simp only [List.getD_cons_succ, findPos, if_neg hne]
      rw [ih (List.nodup_cons.mp hnd).2 hj]
      rfl

/-! ### Rows, zipWith sums -/

theorem zipAdd_zeroRow {r : List Int} {k : Nat} (h : r.length = k) :
    List.zipWith (fun x y => x + y) r (zeroRow k) = r := by
  induction r generalizing k with
  | nil => simp
  | cons a t ih =>
    cases k with
    | zero => simp at h
    | succ m =>
      simp only [zeroRow, List.replicate_succ, List.zipWith_cons_cons, add_zero]
      congr 1
      simpa [zeroRow] using ih (show t.length = m by simpa using h)

theorem zipAdd_comm (u v : List Int) :
    List.zipWith (fun x y => x + y) u v = List.zipWith (fun x y => x + y) v u :=
  List.zipWith_comm_of_comm _ (fun a b => by ring) u v

theorem getD_range_map {β : Type} (f : Nat → β) (dflt : β) {j n : Nat}
    (hj : j < n) : ((List.range n).map f).getD j dflt = f j := by
  rw [List.getD_eq_getElem _ _ (by simpa using hj)]
  simp

theorem map_getD_range (l : List Int) :
    (List.range l.length).map (fun i => l.getD i 0) = l := by
  apply List.ext_getElem
  · simp
  · intro j h1 h2
    simp only [List.getElem_map, List.getElem_range]
    rw [List.getD_eq_getElem _ _ h2]

/-! ### argsort and uniqueSorted -/

theorem argsort_perm (l : List Int) : (argsort l).Perm (List.range l.length) :=
  List.perm_insertionSort _ _

theorem argsort_length (l : List Int) : (argsort l).length = l.length := by
  rw [(argsort_perm l).length_eq, List.length_range]

theorem argsort_mem_lt {l : List Int} {i : Nat} (h : i ∈ argsort l) :
    i < l.length := by
  have := (argsort_perm l).mem_iff.mp h
  simpa using this

/-- The values of `l` in the order `argsort` puts them (what `sort_index`
does to the labels). -/
def sortVals (l : List Int) : List Int := (argsort l).map (fun i => l.getD i 0)

theorem argsort_sorted (l : List Int) :
    List.Sorted (fun a b => a ≤ b) (sortVals l) := by
  haveI htot : IsTotal Nat (fun i j => l.getD i 0 ≤ l.getD j 0) :=
    ⟨fun a b => le_total _ _⟩
  haveI htrans : IsTrans Nat (fun i j => l.getD i 0 ≤ l.getD j 0) :=
    ⟨fun a b c hab hbc => le_trans hab hbc⟩
  have hs := List.sorted_insertionSort (fun i j => l.getD i 0 ≤ l.getD j 0)
    (List.range l.length)
  exact List.Pairwise.map _ (fun a b h => h) hs

theorem sortVals_perm (l : List Int) : (sortVals l).Perm l := by
  have h := (argsort_perm l).map (fun i => l.getD i 0)
  rw [map_getD_range] at h
  exact h

theorem sortVals_eq_of_perm {l1 l2 : List Int} (h : l1.Perm l2) :
    sortVals l1 = sortVals l2 :=
  List.eq_of_perm_of_sorted ((sortVals_perm l1).trans (h.trans (sortVals_perm l2).symm))
    (argsort_sorted l1) (argsort_sorted l2)

theorem sortVals_of_sorted {l : List Int} (h : List.Sorted (fun a b => a ≤ b) l) :
    sortVals l = l :=
  List.eq_of_perm_of_sorted (sortVals_perm l) (argsort_sorted l) h

theorem uniqueSorted_eq_dedup_sortVals (l : List Int) :
    uniqueSorted l = (sortVals l).dedup := rfl

theorem uniqueSorted_nodup (l : List Int) : (uniqueSorted l).Nodup :=
  List.nodup_dedup _

theorem uniqueSorted_mem {x : Int} {l : List Int} :
    x ∈ uniqueSorted l ↔ x ∈ l := by
  rw [uniqueSorted_eq_dedup_sortVals, List.mem_dedup]
  exact (sortVals_perm l).mem_iff

theorem uniqueSorted_sorted (l : List Int) :
    List.Sorted (fun a b => a ≤ b) (uniqueSorted l) :=
  List.Pairwise.sublist (List.dedup_sublist _) (argsort_sorted l)

theorem uniqueSorted_of_perm {l1 l2 : List Int} (h : l1.Perm l2) :
    uniqueSorted l1 = uniqueSorted l2 :=
  congrArg List.dedup (sortVals_eq_of_perm h)

/-! ### Sums along a column -/

theorem dot_map_map {β : Type} (l : List β) (f h : β → Int) :
    dot (l.map f) (l.map h) = (l.map (fun x => f x * h x)).sum := by
  induction l with
  | nil => rfl
  | cons a t ih =>
    simp only [dot, List.map_cons, List.zipWith_cons_cons, List.sum_cons] at ih ⊢
    rw [ih]

theorem sum_map_filter {β : Type} (l : List β) (q : β → Bool) (f : β → Int) :
    ((l.filter q).map f).sum = (l.map (fun x => if q x then f x else 0)).sum := by
  induction l with
  | nil => rfl
  | cons a t ih =>
    by_cases hq : q a
    · simp [List.filter_cons, hq, ih]
    · simp [List.filter_cons, hq, ih]

/-! ### Python slices -/

theorem pySlice_append {α : Type} {a b c : Nat} (l : List α) (hab : a ≤ b)
    (hbc : b ≤ c) (hc : c ≤ l.length) :
    pySlice a b l ++ pySlice b c l = pySlice a c l := by
  unfold pySlice
  have h1 : List.take b (List.take c l) = List.take b l := by
    rw [List.take_take]
    congr 1
    exact min_eq_left hbc
  have h2 : List.take b l ++ List.drop b (List.take c l) = List.take c l := by
    conv_rhs => rw [← List.take_append_drop b (List.take c l)]
    rw [h1]
  have hlen : a ≤ (List.take b l).length := by
    rw [List.length_take]
    exact le_min hab (hab.trans (hbc.trans hc))
  calc List.drop a (List.take b l) ++ List.drop b (List.take c l)
      = List.drop a (List.take b l ++ List.drop b (List.take c l)) := by
        rw [List.drop_append_of_le_length hlen]
    _ = List.drop a (List.take c l) := by rw [h2]

theorem flatMap_pySlice {α : Type} (l : List α) (f : Nat → Nat) (n : Nat)
    (h0 : f 0 = 0) (hmono : ∀ i, i < n → f i ≤ f (i + 1))
    (hub : ∀ i, i ≤ n → f i ≤ l.length) (hn : f n = l.length) :
    (List.range n).flatMap (fun j => pySlice (f j) (f (j + 1)) l) = l := by
  have aux : ∀ m, m ≤ n →
      (List.range m).flatMap (fun j => pySlice (f j) (f (j + 1)) l) =
        pySlice 0 (f m) l := by
    intro m
    induction m with
    | zero => intro _; simp [pySlice, h0]
    | succ m ih =>
      intro hm
      rw [List.range_succ, List.flatMap_append]
      simp only [List.flatMap_cons, List.flatMap_nil, List.append_nil]
      rw [ih (Nat.le_of_succ_le hm)]
      exact pySlice_append l (Nat.zero_le _) (hmono m (Nat.lt_of_succ_le hm))
        (hub (m + 1) hm)
  have hfin := aux n le_rfl
  rw [hn] at hfin
  rw [hfin]
  simp [pySlice]

/-! ### Further helpers -/

theorem headD_eq_getD_zero {α : Type} (l : List α) (d : α) :
    l.headD d = l.getD 0 d := by
  cases l <;> rfl

theorem getD_map_eq {β γ : Type} (f : β → γ) (l : List β) {j : Nat}
    (hj : j < l.length) (d : γ) (d2 : β) :
    (l.map f).getD j d = f (l.getD j d2) := by
  rw [List.getD_eq_getElem _ _ (by simpa using hj), List.getD_eq_getElem _ _ hj,
    List.getElem_map]

theorem phys_row_length (sf : SparseFrame) (hwf : WF sf) {i : Nat}
    (hi : i < sf._data.length) :
    (sf._data.getD i []).length = sf._columns.length := by
  rw [List.getD_eq_getElem _ _ hi]
  exact hwf.2.1 _ (List.getElem_mem hi)

theorem phys_eq_data_append (sf : SparseFrame) (hwf : WF sf) :
    sf._data = sf.data ++ [zeroRow sf._columns.length] := by
  have hne : sf._data ≠ [] := by
    intro h
    have h1 := hwf.1
    rw [h] at h1
    simp at h1
  have hlast : sf._data.getLast hne = zeroRow sf._columns.length := by
    have h2 := hwf.2.2
    rw [List.getLast?_eq_getLast _ hne] at h2
    simpa using h2
  conv_lhs => rw [← List.dropLast_append_getLast hne]
  rw [hlast]
  rfl

theorem unitRow_length (k c : Nat) : (unitRow k c).length = k := by
  simp [unitRow]

theorem unitRow_getD {k c j : Nat} (hj : j < k) :
    (unitRow k c).getD j 0 = if j = c then 1 else 0 :=
  getD_range_map _ _ hj

instance exceptDecidableEq {ε α : Type} [DecidableEq ε] [DecidableEq α] :
    DecidableEq (Except ε α) := fun a b =>
  match a, b with
  | Except.ok x, Except.ok y =>
      if h : x = y then isTrue (by rw [h])
      else isFalse (by intro hc; injection hc with h2; exact h h2)
  | Except.ok _, Except.error _ => isFalse (by intro hc; cases hc)
  | Except.error _, Except.ok _ => isFalse (by intro hc; cases hc)
  | Except.error x, Except.error y =>
      if h : x = y then isTrue (by rw [h])
      else isFalse (by intro hc; injection hc with h2; exact h h2)

/-- Example frames used by the concrete witnesses and counterexamples. -/
def exA : SparseFrame := SparseFrame.make [[1]] (some [0]) (some [0])

def exB : SparseFrame := SparseFrame.make [[2]] (some [1]) (some [0])

def exI2 : SparseFrame := SparseFrame.make [[1, 0], [0, 1]] (some [0, 1]) (some [0, 1])

def exS3 : SparseFrame :=
  SparseFrame.make [[1, 2], [3, 4], [5, 6]] (some [30, 10, 20]) (some [8, 9])

/-- C5 (code bug in `__setitem__`): after a column assignment the storage has
gained the new column (width 3, the assigned values in place, sentinel still
zero) but the stored column label index is unchanged at `[0, 1]`, because the
source discards the result of `pandas.Index.append`; the column label count
no longer equals the matrix width. -/
theorem setitem_leaves_columns_stale :
    (exI2.setitem 2 [5, 7]).map
        (fun r => (r._columns, r.data, r._data.getLast?.getD [])) =
      Except.ok ([0, 1], [[1, 0, 5], [0, 1, 7]], [0, 0, 0]) := by
  decide

/-- C9 (amended): column assignment with a values vector whose length differs
from the row count fails, but with the ValueError scipy's `hstack` raises on
mismatched row dimensions - there is no assertion in `__setitem__`. -/
theorem setitem_length_mismatch (sf : SparseFrame) (key : Int) (value : List Int)
    (hwf : sf._data.length = sf._index.length + 1)
    (hne : value.length ≠ sf._index.length) :
    sf.setitem key value = Except.error PyErr.valueError := by
  have hcond : ¬((value ++ [0]).length = sf._data.length) := by
    simp [hwf]
    omega
  simp only [SparseFrame.setitem, if_neg hcond]

/-- C9 (counterexample): a length-1 values vector assigned to a 2-row frame
raises ValueError, not an AssertionError-class failure as claimed. -/
theorem setitem_mismatch_is_value_error :
    exI2.setitem 9 [5] = Except.error PyErr.valueError ∧
      (Except.error PyErr.valueError : Except PyErr SparseFrame) ≠
        Except.error PyErr.assertionError := by
  decide

/-- C9 (witness): the amended theorem applied at a concrete frame. -/
theorem setitem_length_mismatch_witness :
    (exI2._data.length = exI2._index.length + 1 ∧
      ([5] : List Int).length ≠ exI2._index.length) ∧
      exI2.setitem 9 [5] = Except.error PyErr.valueError :=
  ⟨by decide, setitem_length_mismatch exI2 9 [5] (by decide) (by decide)⟩

/-- C8: one-hot encoding against a fixed vocabulary: if any input value lies
outside the vocabulary the result is the ValueError naming exactly the
distinct offending values; otherwise it is an `(n_samples, n_categories)`
matrix whose row `i` carries a single 1 in the column of `s[i]`'s category. -/
theorem one_hot_characterization (s categories : List Int)
    (hnd : categories.Nodup) :
    ((∃ v ∈ s, v ∉ categories) →
      ∃ offending, csr_one_hot_series s categories =
          Except.error (OneHotErr.unknownCategories offending) ∧
        offending.Nodup ∧ (∀ v, v ∈ offending ↔ v ∈ s ∧ v ∉ categories)) ∧
    ((∀ v ∈ s, v ∈ categories) →
      ∃ m, csr_one_hot_series s categories = Except.ok m ∧
        m.length = s.length ∧
        ∀ i, i < s.length → (m.getD i []).length = categories.length ∧
          ∀ j, j < categories.length →
            (m.getD i []).getD j 0 =
              if categories.getD j 0 = s.getD i 0 then 1 else 0) := by
  constructor
  · rintro ⟨v, hvs, hvc⟩
    have hall : ¬((s.map (fun v => findPos v categories)).all (fun c => c.isSome) = true) := by
      rw [List.all_eq_true]
      intro hcontra
      have := hcontra _ (List.mem_map_of_mem _ hvs)
      exact hvc (findPos_isSome_iff_mem.mp this)
    refine ⟨uniqueSorted (s.filter (fun v => (findPos v categories).isNone)),
      ?_, uniqueSorted_nodup _, ?_⟩
    · simp only [csr_one_hot_series, if_neg hall]
    · intro w
      rw [uniqueSorted_mem, List.mem_filter]
      constructor
      · rintro ⟨hws, hwn⟩
        refine ⟨hws, ?_⟩
        rw [Option.isNone_iff_eq_none] at hwn
        exact findPos_eq_none_iff.mp hwn
      · rintro ⟨hws, hwn⟩
        refine ⟨hws, ?_⟩
        rw [Option.isNone_iff_eq_none]
        exact findPos_eq_none_iff.mpr hwn
  · intro hmem
    have hall : (s.map (fun v => findPos v categories)).all (fun c => c.isSome) = true := by
      rw [List.all_eq_true]
      intro c hc
      rcases List.mem_map.mp hc with ⟨v, hvs, rfl⟩
      exact findPos_isSome_iff_mem.mpr (hmem v hvs)
    refine ⟨(s.map (fun v => findPos v categories)).map
      (fun c => unitRow categories.length (c.getD 0)), ?_, ?_, ?_⟩
    · simp only [csr_one_hot_series, if_pos hall]
    · simp
    · intro i hi
      have hi2 : i < (s.map (fun v => findPos v categories)).length := by simpa using hi
      have hrow : ((s.map (fun v => findPos v categories)).map
          (fun c => unitRow categories.length (c.getD 0))).getD i [] =
          unitRow categories.length ((findPos (s.getD i 0) categories).getD 0) := by
        rw [getD_map_eq _ _ hi2 _ none, getD_map_eq _ _ hi _ 0]
      rcases hfp : findPos (s.getD i 0) categories with _ | c
      · exfalso
        have : s.getD i 0 ∈ s := by
          rw [List.getD_eq_getElem _ _ hi]
          exact List.getElem_mem hi
        exact findPos_eq_none_iff.mp hfp (hmem _ this)
      · have hc := findPos_some_lt hfp
        have hcv := findPos_some_getD hfp
        constructor
        · rw [hrow, hfp]
          exact unitRow_length _ _
        · intro j hj
          rw [hrow, hfp]
          show (unitRow categories.length c).getD j 0 = _
          rw [unitRow_getD hj]
          have hiff : j = c ↔ categories.getD j 0 = s.getD i 0 := by
            rw [← hcv, List.getD_eq_getElem _ _ hj, List.getD_eq_getElem _ _ hc]
            constructor
            · intro h
              subst h
              rfl
            · intro h
              exact hnd.getElem_inj_iff.mp h
          by_cases hjc : j = c
          · rw [if_pos hjc, if_pos (hiff.mp hjc)]
          · rw [if_neg hjc, if_neg (fun hcontra => hjc (hiff.mpr hcontra))]

/-- C8 (witness): the characterization applied to the weekday-style scenario:
a vocabulary of 7 category codes and an input holding an 8th unseen value. -/
theorem one_hot_characterization_witness :
    ([1, 2, 3, 4, 5, 6, 7] : List Int).Nodup ∧
      ((∃ v ∈ ([1, 8] : List Int), v ∉ ([1, 2, 3, 4, 5, 6, 7] : List Int)) →
        ∃ offending, csr_one_hot_series [1, 8] [1, 2, 3, 4, 5, 6, 7] =
            Except.error (OneHotErr.unknownCategories offending) ∧
          offending.Nodup ∧
          (∀ v, v ∈ offending ↔ v ∈ ([1, 8] : List Int) ∧
            v ∉ ([1, 2, 3, 4, 5, 6, 7] : List Int))) :=
  ⟨by decide, (one_hot_characterization [1, 8] [1, 2, 3, 4, 5, 6, 7] (by decide)).1⟩

theorem vstack_data (fs : List SparseFrame) :
    (SparseFrame.vstack fs).data = fs.flatMap SparseFrame.data :=
  make_data _ _ _

/-- C7 (code bug): `npartitions_ratio = df.npartitions / npartitions` is a
Python float, so the shrink boundaries `int(i * npartitions_ratio)` are IEEE
binary64 arithmetic, not the exact `floor(i * old / new)`.  Shrinking 15
single-row partitions to 11: the last boundary is
`int(11 * (15 / 11)) = int(14.999999999999998) = 14` while the exact floor
is 15, so old partition 14 lies in no boundary range `[b[j], b[j+1])`, no
new partition consumes it, and the total row count drops from 15 to 14. -/
theorem repartition_shrink_drops_partition :
    new_partitions_boundaries 15 11 =
      [0, 1, 2, 4, 5, 6, 8, 9, 10, 12, 13, 14] ∧
    (11 : Nat) * 15 / 11 = 15 ∧
    ((repartition_npartitions_shrink (List.replicate 15 exA) 11).map
        (fun f => f.data.length)).sum = 14 ∧
    ((List.replicate 15 exA).map (fun f => f.data.length)).sum = 15 := by
  decide

/-- C6: with identical column labels `join(axis=0)` takes the fast vstack
path, whose shape is the sum of the two logical row counts over the shared
columns; with differing column labels the general alignment path never
produces a frame - it raises (`data.T.to_csr()` is an AttributeError since
csr matrices only have `tocsr`; on some inputs scipy's hstack raises first) -
so the general path cannot agree with the fast path on any content. -/
theorem join_axis0_fast_shape_general_raises (A B C : SparseFrame)
    (hAB : B._columns = A._columns) (hC : ¬(C._columns = A._columns)) :
    (∃ r, A.joinAxis0 B = Except.ok r ∧
      r.data.length = A.data.length + B.data.length ∧
      r._columns = A._columns ∧ r._index = A._index ++ B._index) ∧
    (∃ e, A.joinAxis0 C = Except.error e) := by
  constructor
  · simp only [SparseFrame.joinAxis0, if_pos hAB]
    refine ⟨_, rfl, ?_, rfl, rfl⟩
    rw [make_data]
    simp
  · simp only [SparseFrame.joinAxis0, if_neg hC]
    rcases hm : _matrix_join (transposeT A._data) (transposeT C._data)
        A._columns C._columns with e | val
    · exact ⟨e, rfl⟩
    · exact ⟨PyErr.attributeError, rfl⟩

/-- C6 (witness): the theorem applied to concrete one- and two-column frames. -/
theorem join_axis0_fast_shape_general_raises_witness :
    (exB._columns = exA._columns ∧ ¬(exI2._columns = exA._columns)) ∧
      ((∃ r, exA.joinAxis0 exB = Except.ok r ∧
        r.data.length = exA.data.length + exB.data.length ∧
        r._columns = exA._columns ∧ r._index = exA._index ++ exB._index) ∧
      (∃ e, exA.joinAxis0 exI2 = Except.error e)) :=
  ⟨⟨by decide, by decide⟩,
    join_axis0_fast_shape_general_raises exA exB exI2 (by decide) (by decide)⟩

/-! ### Sentinel preservation helpers -/

theorem getLast?_getD_eq_getD {α : Type} (l : List α) (d : α) :
    l.getLast?.getD d = l.getD (l.length - 1) d := by
  rw [List.getLast?_eq_getElem?, List.getD_eq_getElem?_getD]

theorem sentinel_of_add_ok {A B r : SparseFrame}
    (h : A.add B = Except.ok r) : sentinelZero r := by
  unfold SparseFrame.add at h
  by_cases hc : A._columns = B._columns
  · rw [if_pos hc] at h
    rcases hm : _aligned_csr_elop A._data B._data A._index B._index with e | val
    · rw [hm] at h
      cases h
    · rw [hm] at h
      injection h with h
      subst h
      exact sentinelZero_make _ _ _
  · rw [if_neg hc] at h
    cases h

theorem sentinel_of_join_ok {A B r : SparseFrame}
    (h : A.joinAxis0 B = Except.ok r) : sentinelZero r := by
  unfold SparseFrame.joinAxis0 at h
  by_cases hc : B._columns = A._columns
  · rw [if_pos hc] at h
    injection h with h
    subst h
    exact sentinelZero_make _ _ _
  · rw [if_neg hc] at h
    rcases hm : _matrix_join (transposeT A._data) (transposeT B._data)
        A._columns B._columns with e | val
    · rw [hm] at h
      cases h
    · rw [hm] at h
      cases h

theorem sentinel_of_groupby_ok {A : SparseFrame} {key : Option (List Int)}
    {r : SparseFrame} (h : A.groupby key = Except.ok r) : sentinelZero r := by
  rcases key with _ | b
  · simp only [SparseFrame.groupby] at h
    injection h with h
    subst h
    exact sentinelZero_make _ _ _
  · simp only [SparseFrame.groupby] at h
    by_cases hc : b.length = A.data.length
    · rw [if_pos hc] at h
      injection h with h
      subst h
      exact sentinelZero_make _ _ _
    · rw [if_neg hc] at h
      cases h

theorem sentinel_of_setitem_ok {sf : SparseFrame} {k : Int} {v : List Int}
    {r : SparseFrame} (hs : sentinelZero sf)
    (h : sf.setitem k v = Except.ok r) : sentinelZero r := by
  unfold SparseFrame.setitem at h
  by_cases hc : (v ++ [0]).length = sf._data.length
  · rw [if_pos hc] at h
    injection h with h
    subst h
    intro x hx
    simp only at hx
    have hN : 0 < sf._data.length := by
      rw [← hc]
      simp
    have hlen : ((sf._data.zip (v ++ [0])).map (fun p => p.1 ++ [p.2])).length =
        sf._data.length := by
      simp [hc]
    rw [getLast?_getD_eq_getD] at hx
    rw [hlen] at hx
    have hidx : sf._data.length - 1 <
        ((sf._data.zip (v ++ [0])).map (fun p => p.1 ++ [p.2])).length := by
      rw [hlen]
      omega
    rw [List.getD_eq_getElem _ _ hidx] at hx
    rw [List.getElem_map] at hx
    have hzidx : sf._data.length - 1 < (sf._data.zip (v ++ [0])).length := by
      simpa using hidx
    rw [List.getElem_zip] at hx
    simp only at hx
    rcases List.mem_append.mp hx with hx1 | hx1
    · apply hs
      rw [getLast?_getD_eq_getD]
      have hlt : sf._data.length - 1 < sf._data.length := by omega
      rw [List.getD_eq_getElem _ _ hlt]
      exact hx1
    · have hb2 : sf._data.length - 1 < (v ++ [0]).length := by
        simp only [← hc, List.length_append, List.length_cons, List.length_nil]
        omega
      have hv : (v ++ [0])[sf._data.length - 1] = 0 := by
        have hvl : sf._data.length - 1 = v.length := by
          have h2 := hc
          simp at h2
          omega
        simp only [hvl]
        exact List.getElem_concat_length v 0 v.length rfl (by simp)
      rw [hv] at hx1
      simpa using hx1
  · rw [if_neg hc] at h
    cases h

/-- C2: the sentinel-row invariant.  Construction appends an all-zero last
physical row and the `data` accessor exposes exactly the logical rows above
it; `add`, `join`, `groupby`, column assignment, `sort_index` and slicing all
rebuild (or extend) the storage so that the last physical row is again
all-zero; and `_slice` with bounds inside the logical row count slices only
logical rows, never the sentinel. -/
theorem sentinel_row_invariant (d : Mat) (ix cx : Option (List Int))
    (A B : SparseFrame) (key : Option (List Int)) (sf : SparseFrame)
    (k : Int) (v : List Int) (a b : Nat) (r1 r2 r3 r4 : SparseFrame)
    (hwf : WF sf) (hb : b ≤ sf._index.length)
    (hadd : A.add B = Except.ok r1)
    (hjoin : A.joinAxis0 B = Except.ok r2)
    (hgrp : A.groupby key = Except.ok r3)
    (hsen : sentinelZero sf)
    (hset : sf.setitem k v = Except.ok r4) :
    ((SparseFrame.make d ix cx).data = d ∧
      sentinelZero (SparseFrame.make d ix cx)) ∧
    sentinelZero r1 ∧ sentinelZero r2 ∧ sentinelZero r3 ∧ sentinelZero r4 ∧
    sentinelZero sf.sort_index ∧ sentinelZero (sf._slice a b) ∧
    sentinelZero (sf._ixs a) ∧
    (sf._slice a b).data = pySlice a b sf.data := by
  refine ⟨⟨make_data _ _ _, sentinelZero_make _ _ _⟩,
    sentinel_of_add_ok hadd, sentinel_of_join_ok hjoin,
    sentinel_of_groupby_ok hgrp, sentinel_of_setitem_ok hsen hset,
    sentinelZero_make _ _ _, sentinelZero_make _ _ _, sentinelZero_make _ _ _, ?_⟩
  show (SparseFrame.make (pySlice a b sf._data) (some (pySlice a b sf._index)) none).data =
    pySlice a b sf.data
  rw [make_data]
  unfold pySlice
  rw [phys_eq_data_append sf hwf]
  rw [List.take_append_of_le_length]
  rw [data_length_of_wf sf hwf]
  exact hb

/-- Slicing with an upper bound inside the logical row count slices the
logical rows only (it cannot reach the sentinel). -/
theorem slice_data_eq (sf : SparseFrame) (hwf : WF sf) {a b : Nat}
    (hb : b ≤ sf._index.length) :
    (sf._slice a b).data = pySlice a b sf.data := by
  show (SparseFrame.make (pySlice a b sf._data) (some (pySlice a b sf._index)) none).data = _
  rw [make_data]
  unfold pySlice
  rw [phys_eq_data_append sf hwf, List.take_append_of_le_length]
  rw [data_length_of_wf sf hwf]
  exact hb

theorem ncols_sortGather (sf : SparseFrame) (hwf : WF sf)
    (hn : 0 < sf._index.length) :
    ncols ((argsort sf._index).map (fun i => sf._data.getD i [])) =
      sf._columns.length := by
  have hn2 : 0 < (argsort sf._index).length := by
    rw [argsort_length]
    exact hn
  rw [ncols, headD_eq_getD_zero]
  rw [getD_map_eq _ _ hn2 _ 0]
  apply phys_row_length sf hwf
  have hmem : (argsort sf._index).getD 0 0 ∈ argsort sf._index := by
    rw [List.getD_eq_getElem _ _ hn2]
    exact List.getElem_mem hn2
  have hlt := argsort_mem_lt hmem
  rw [hwf.1]
  omega

theorem ncols_pySlice_phys (sf : SparseFrame) (hwf : WF sf) {a b : Nat}
    (hab : a < b) (hb : b ≤ sf._index.length) :
    ncols (pySlice a b sf._data) = sf._columns.length := by
  have hphys : b < sf._data.length := by
    rw [hwf.1]
    omega
  have htlen : (List.take b sf._data).length = b := by
    rw [List.length_take]
    exact min_eq_left (by omega)
  have hdlen : 0 < (pySlice a b sf._data).length := by
    unfold pySlice
    rw [List.length_drop, htlen]
    omega
  rw [ncols, headD_eq_getD_zero, List.getD_eq_getElem _ _ hdlen]
  unfold pySlice
  simp only [List.getElem_drop, List.getElem_take]
  exact hwf.2.1 _ (List.getElem_mem _)

/-- C10: `sort_index`, `_slice` and `_ixs` all rebuild through the
constructor without passing the columns on, so the result's column label
index is reset to the default positional range, while the row labels and the
matrix rows are permuted (sort) or sliced (slice, ixs) consistently. -/
theorem sort_slice_ixs_reset_columns (sf : SparseFrame) (hwf : WF sf)
    (hn : 0 < sf._index.length)
    (_hnondef : sf._columns ≠ defaultIndex sf._columns.length)
    (a b i : Nat) (hab : a < b) (hb : b ≤ sf._index.length)
    (hi : i < sf._index.length) :
    (sf.sort_index._columns = defaultIndex sf._columns.length ∧
      sf.sort_index._index = sortVals sf._index ∧
      List.Sorted (fun x y => x ≤ y) sf.sort_index._index ∧
      sf.sort_index._index.Perm sf._index ∧
      (∀ j, j < sf._index.length → ∃ p, p < sf._index.length ∧
        sf.sort_index._index.getD j 0 = sf._index.getD p 0 ∧
        sf.sort_index.data.getD j [] = sf.data.getD p [])) ∧
    ((sf._slice a b)._columns = defaultIndex sf._columns.length ∧
      (sf._slice a b).data = pySlice a b sf.data ∧
      (sf._slice a b)._index = pySlice a b sf._index) ∧
    ((sf._ixs i)._columns = defaultIndex sf._columns.length ∧
      (sf._ixs i).data = [sf.data.getD i []] ∧
      (sf._ixs i)._index = [sf._index.getD i 0]) := by
  have hdlen := data_length_of_wf sf hwf
  have hargl : (argsort sf._index).length = sf._index.length := argsort_length _
  refine ⟨⟨?_, rfl, argsort_sorted _, sortVals_perm _, ?_⟩, ⟨?_, ?_, rfl⟩, ⟨?_, ?_, rfl⟩⟩
  · show defaultIndex (ncols ((argsort sf._index).map (fun i => sf._data.getD i []))) = _
    rw [ncols_sortGather sf hwf hn]
  · intro j hj
    have hj2 : j < (argsort sf._index).length := by omega
    refine ⟨(argsort sf._index).getD j 0, ?_, ?_, ?_⟩
    · have hmem : (argsort sf._index).getD j 0 ∈ argsort sf._index := by
        rw [List.getD_eq_getElem _ _ hj2]
        exact List.getElem_mem hj2
      exact argsort_mem_lt hmem
    · exact getD_map_eq _ _ hj2 _ 0
    · show (SparseFrame.make ((argsort sf._index).map (fun i => sf._data.getD i []))
          (some ((argsort sf._index).map (fun i => sf._index.getD i 0))) none).data.getD j [] = _
      rw [make_data, getD_map_eq _ _ hj2 _ 0]
      apply phys_getD_eq_data_getD
      rw [hdlen]
      have hmem : (argsort sf._index).getD j 0 ∈ argsort sf._index := by
        rw [List.getD_eq_getElem _ _ hj2]
        exact List.getElem_mem hj2
      exact argsort_mem_lt hmem
  · show defaultIndex (ncols (pySlice a b sf._data)) = _
    rw [ncols_pySlice_phys sf hwf hab hb]
  · exact slice_data_eq sf hwf hb
  · show defaultIndex (ncols [sf._data.getD i []]) = _
    have : ncols [sf._data.getD i []] = sf._columns.length := by
      show (sf._data.getD i []).length = _
      apply phys_row_length sf hwf
      rw [hwf.1]
      omega
    rw [this]
  · show (SparseFrame.make [sf._data.getD i []] (some [sf._index.getD i 0]) none).data = _
    rw [make_data, phys_getD_eq_data_getD sf i (by omega)]

/-- C10 (witness): applied at a 3-row frame with non-default column labels. -/
theorem sort_slice_ixs_reset_columns_witness :
    (WF exS3 ∧ 0 < exS3._index.length ∧
      exS3._columns ≠ defaultIndex exS3._columns.length ∧
      1 < 3 ∧ 3 ≤ exS3._index.length ∧ 1 < exS3._index.length) ∧
    ((exS3.sort_index._columns = defaultIndex exS3._columns.length ∧
      exS3.sort_index._index = sortVals exS3._index ∧
      List.Sorted (fun x y => x ≤ y) exS3.sort_index._index ∧
      exS3.sort_index._index.Perm exS3._index ∧
      (∀ j, j < exS3._index.length → ∃ p, p < exS3._index.length ∧
        exS3.sort_index._index.getD j 0 = exS3._index.getD p 0 ∧
        exS3.sort_index.data.getD j [] = exS3.data.getD p [])) ∧
    ((exS3._slice 1 3)._columns = defaultIndex exS3._columns.length ∧
      (exS3._slice 1 3).data = pySlice 1 3 exS3.data ∧
      (exS3._slice 1 3)._index = pySlice 1 3 exS3._index) ∧
    ((exS3._ixs 1)._columns = defaultIndex exS3._columns.length ∧
      (exS3._ixs 1).data = [exS3.data.getD 1 []] ∧
      (exS3._ixs 1)._index = [exS3._index.getD 1 0])) :=
  ⟨⟨by decide, by decide, by decide, by decide, by decide, by decide⟩,
    sort_slice_ixs_reset_columns exS3 (by decide) (by decide) (by decide) 1 3 1
      (by decide) (by decide) (by decide)⟩

/-- C2 (witness): the invariant theorem applied at concrete frames and
results of every operation. -/
theorem sentinel_row_invariant_witness :
    (WF exA ∧ (1 : Nat) ≤ exA._index.length ∧
      exA.add exA = Except.ok ⟨[[2], [0]], [0], [0]⟩ ∧
      exA.joinAxis0 exA = Except.ok ⟨[[1], [1], [0]], [0, 0], [0]⟩ ∧
      exA.groupby none = Except.ok ⟨[[1], [0]], [0], [0]⟩ ∧
      sentinelZero exA ∧
      exA.setitem 7 [5] = Except.ok ⟨[[1, 5], [0, 0]], [0], [0]⟩) ∧
    (((SparseFrame.make [[1]] (some [0]) (some [0])).data = [[1]] ∧
        sentinelZero (SparseFrame.make [[1]] (some [0]) (some [0]))) ∧
      sentinelZero (⟨[[2], [0]], [0], [0]⟩ : SparseFrame) ∧
      sentinelZero (⟨[[1], [1], [0]], [0, 0], [0]⟩ : SparseFrame) ∧
      sentinelZero (⟨[[1], [0]], [0], [0]⟩ : SparseFrame) ∧
      sentinelZero (⟨[[1, 5], [0, 0]], [0], [0]⟩ : SparseFrame) ∧
      sentinelZero exA.sort_index ∧ sentinelZero (exA._slice 0 1) ∧
      sentinelZero (exA._ixs 0) ∧
      (exA._slice 0 1).data = pySlice 0 1 exA.data) :=
  ⟨⟨by decide, by decide, by decide, by decide, by decide, by decide, by decide⟩,
    sentinel_row_invariant [[1]] (some [0]) (some [0]) exA exA none exA 7 [5] 0 1
      ⟨[[2], [0]], [0], [0]⟩ ⟨[[1], [1], [0]], [0, 0], [0]⟩
      ⟨[[1], [0]], [0], [0]⟩ ⟨[[1, 5], [0, 0]], [0], [0]⟩
      (by decide) (by decide) (by decide) (by decide) (by decide) (by decide)
      (by decide)⟩

theorem ncols_data_of_wf (sf : SparseFrame) (hwf : WF sf)
    (hn : 0 < sf._index.length) :
    ncols sf.data = sf._columns.length := by
  have hlen : 0 < sf.data.length := by
    rw [data_length_of_wf sf hwf]
    exact hn
  rw [ncols, headD_eq_getD_zero, List.getD_eq_getElem _ _ hlen]
  exact data_row_length_of_wf sf hwf (List.getElem_mem hlen)

theorem elemAdd_zero_rows (d : Mat) (k : Nat) (idx : List Int)
    (hlen : d.length = idx.length) (hw : ∀ r ∈ d, r.length = k) :
    elemAdd d (idx.map (fun _ => zeroRow k)) = d := by
  induction d generalizing idx with
  | nil => simp [elemAdd]
  | cons r t ih =>
    cases idx with
    | nil => simp at hlen
    | cons x xs =>
      simp only [List.map_cons, elemAdd, List.zipWith_cons_cons]
      rw [zipAdd_zeroRow (hw r (by simp))]
      have := ih xs (by simpa using hlen) (fun s hs => hw s (by simp [hs]))
      simp only [elemAdd] at this
      rw [this]

/-- C1 (counterexample): adding two frames with column labels `[0]` and
disjoint row label sets `[0]` and `[1]` yields a frame whose row labels are
`[0]` only - the label `1` of the right operand is absent, so the result's
row labels are NOT the union of both operands' row labels. -/
theorem add_disjoint_not_union :
    exA.add exB = Except.ok (⟨[[1], [0]], [0], [0]⟩ : SparseFrame) ∧
      (⟨[[1], [0]], [0], [0]⟩ : SparseFrame)._index = [0] ∧
      (1 : Int) ∈ exB._index ∧
      (1 : Int) ∉ (⟨[[1], [0]], [0], [0]⟩ : SparseFrame)._index := by
  decide

/-- C1 (amended): `_aligned_csr_elop` calls the pandas index join with its
default `how='left'`, so `add` of two frames with identical column labels
and disjoint row label sets returns a frame whose row labels are exactly the
LEFT operand's labels; each of its rows equals the left operand's row
unchanged, because every right-side lookup misses and gathers the all-zero
sentinel row (no residual nonzero from the right side); rows present only in
the right operand are dropped. -/
theorem add_disjoint_left_frame (A B : SparseFrame) (hwfA : WF A) (hwfB : WF B)
    (hcols : A._columns = B._columns)
    (hdisj : ∀ x ∈ A._index, x ∉ B._index) :
    ∃ r, A.add B = Except.ok r ∧ r._index = A._index ∧ r.data = A.data ∧
      r._columns = A._columns := by
  have hgather : gatherRows B._data (A._index.map (fun x => findPos x B._index)) =
      A._index.map (fun _ => zeroRow A._columns.length) := by
    unfold gatherRows
    rw [List.map_map]
    apply List.map_congr_left
    intro x hx
    have hnone : findPos x B._index = none :=
      findPos_eq_none_iff.mpr (hdisj x hx)
    simp only [Function.comp_apply, hnone]
    rw [hwfB.2.2, hcols]
  have haNew : alignGather A._data (leftJoin A._index B._index).2.1 = A.data := rfl
  have hbNew : alignGather B._data (leftJoin A._index B._index).2.2 =
      A._index.map (fun _ => zeroRow A._columns.length) := hgather
  have h1 : A.data.length = (A._index.map (fun _ => zeroRow A._columns.length)).length := by
    rw [data_length_of_wf A hwfA]
    simp
  have h2 : ncols A.data = ncols (A._index.map (fun _ => zeroRow A._columns.length)) := by
    rcases hA : A._index with _ | ⟨x, xs⟩
    · have hl := data_length_of_wf A hwfA
      rw [hA] at hl
      have hd : A.data = [] := List.length_eq_zero.mp (by simpa using hl)
      rw [hd]
      rfl
    · have hn : 0 < A._index.length := by
        rw [hA]
        simp
      rw [ncols_data_of_wf A hwfA hn]
      simp [ncols, zeroRow]
  have hshape : matShape (alignGather A._data (leftJoin A._index B._index).2.1) =
      matShape (alignGather B._data (leftJoin A._index B._index).2.2) := by
    rw [haNew, hbNew]
    unfold matShape
    rw [h1, h2]
  have hsum : elemAdd A.data (A._index.map (fun _ => zeroRow A._columns.length)) =
      A.data :=
    elemAdd_zero_rows A.data _ A._index (data_length_of_wf A hwfA)
      (fun r hr => data_row_length_of_wf A hwfA hr)
  have helop : _aligned_csr_elop A._data B._data A._index B._index =
      Except.ok (A.data, A._index) := by
    simp only [_aligned_csr_elop]
    rw [if_pos hshape]
    rw [haNew, hbNew, hsum]
    rfl
  refine ⟨SparseFrame.make A.data (some A._index) (some A._columns), ?_, rfl,
    make_data _ _ _, rfl⟩
  unfold SparseFrame.add
  rw [if_pos hcols, helop]

/-- C1 (witness): the amended theorem applied at two concrete disjoint
frames. -/
theorem add_disjoint_left_frame_witness :
    (WF exA ∧ WF exB ∧ exA._columns = exB._columns ∧
      (∀ x ∈ exA._index, x ∉ exB._index)) ∧
    (∃ r, exA.add exB = Except.ok r ∧ r._index = exA._index ∧
      r.data = exA.data ∧ r._columns = exA._columns) :=
  ⟨⟨by decide, by decide, by decide, by decide⟩,
    add_disjoint_left_frame exA exB (by decide) (by decide) (by decide) (by decide)⟩

/-! ### Characterizing `add` on well-formed frames -/

theorem ncols_eq_of_rows {m : Mat} {k : Nat} (hne : 0 < m.length)
    (hrows : ∀ r ∈ m, r.length = k) : ncols m = k := by
  rw [ncols, headD_eq_getD_zero, List.getD_eq_getElem _ _ hne]
  exact hrows _ (List.getElem_mem hne)

theorem gather_findPos_row_length (B : SparseFrame) (hwfB : WF B)
    (idx : List Int) {r : List Int}
    (hr : r ∈ gatherRows B._data (idx.map (fun x => findPos x B._index))) :
    r.length = B._columns.length := by
  unfold gatherRows at hr
  rw [List.map_map] at hr
  rcases List.mem_map.mp hr with ⟨x, _, rfl⟩
  simp only [Function.comp_apply]
  rcases hfp : findPos x B._index with _ | i
  · show (B._data.getLast?.getD []).length = _
    rw [hwfB.2.2]
    exact zeroRow_length _
  · show (B._data.getD i []).length = _
    apply phys_row_length B hwfB
    have := findPos_some_lt hfp
    rw [hwfB.1]
    omega

theorem gatherRows_length (m : Mat) (ixs : List (Option Nat)) :
    (gatherRows m ixs).length = ixs.length := by
  simp [gatherRows]

/-- `add` on two well-formed frames with equal column labels always succeeds:
the left side is the logical rows, the right side gathers by the left-join
indexer (absent labels resolving to the sentinel row). -/
theorem add_ok_of_wf (A B : SparseFrame) (hwfA : WF A) (hwfB : WF B)
    (hcols : A._columns = B._columns) :
    A.add B = Except.ok (SparseFrame.make
      (elemAdd A.data
        (gatherRows B._data (A._index.map (fun x => findPos x B._index))))
      (some A._index) (some A._columns)) := by
  have hgl : (gatherRows B._data (A._index.map (fun x => findPos x B._index))).length =
      A._index.length := by
    rw [gatherRows_length]
    simp
  have h1 : A.data.length =
      (gatherRows B._data (A._index.map (fun x => findPos x B._index))).length := by
    rw [data_length_of_wf A hwfA, hgl]
  have h2 : ncols A.data =
      ncols (gatherRows B._data (A._index.map (fun x => findPos x B._index))) := by
    rcases Nat.eq_zero_or_pos A._index.length with hzero | hpos
    · have hd : A.data = [] := List.length_eq_zero.mp
        (by rw [data_length_of_wf A hwfA]; exact hzero)
      have hg : gatherRows B._data (A._index.map (fun x => findPos x B._index)) = [] :=
        List.length_eq_zero.mp (by rw [hgl]; exact hzero)
      rw [hd, hg]
    · have hgpos : 0 <
          (gatherRows B._data (A._index.map (fun x => findPos x B._index))).length := by
        rw [hgl]
        exact hpos
      rw [ncols_data_of_wf A hwfA hpos,
        ncols_eq_of_rows hgpos (fun r hr => gather_findPos_row_length B hwfB _ hr),
        hcols]
  have hshape : matShape (alignGather A._data (leftJoin A._index B._index).2.1) =
      matShape (alignGather B._data (leftJoin A._index B._index).2.2) := by
    show matShape A.data =
      matShape (gatherRows B._data (A._index.map (fun x => findPos x B._index)))
    unfold matShape
    rw [h1, h2]
  unfold SparseFrame.add
  rw [if_pos hcols]
  have helop : _aligned_csr_elop A._data B._data A._index B._index =
      Except.ok (elemAdd A.data
        (gatherRows B._data (A._index.map (fun x => findPos x B._index))), A._index) := by
    simp only [_aligned_csr_elop]
    rw [if_pos hshape]
    rfl
  rw [helop]

theorem elemAdd_row_length {X Y : Mat} {k : Nat}
    (hX : ∀ r ∈ X, r.length = k) (hY : ∀ r ∈ Y, r.length = k)
    {r : List Int} (hr : r ∈ elemAdd X Y) : r.length = k := by
  rcases List.mem_iff_getElem.mp hr with ⟨i, hi, rfl⟩
  unfold elemAdd at hi ⊢
  rw [List.getElem_zipWith, List.length_zipWith]
  have hiX : i < X.length := by
    rw [List.length_zipWith] at hi
    omega
  have hiY : i < Y.length := by
    rw [List.length_zipWith] at hi
    omega
  rw [hX _ (List.getElem_mem hiX), hY _ (List.getElem_mem hiY)]
  simp

theorem elemAdd_length (X Y : Mat) :
    (elemAdd X Y).length = X.length ⊓ Y.length := by
  unfold elemAdd
  exact List.length_zipWith _ _ _

theorem elemAdd_getD {X Y : Mat} {i : Nat} (hX : i < X.length) (hY : i < Y.length) :
    (elemAdd X Y).getD i [] =
      List.zipWith (fun x y => x + y) (X.getD i []) (Y.getD i []) := by
  unfold elemAdd
  rw [List.getD_eq_getElem _ _ (by rw [List.length_zipWith]; omega),
    List.getElem_zipWith, List.getD_eq_getElem _ _ hX, List.getD_eq_getElem _ _ hY]

/-- The add result frame is itself well-formed when the left operand has at
least one row. -/
theorem wf_add_result (A B : SparseFrame) (hwfA : WF A) (hwfB : WF B)
    (hcols : A._columns = B._columns) (hn : 0 < A._index.length) :
    WF (SparseFrame.make
      (elemAdd A.data
        (gatherRows B._data (A._index.map (fun x => findPos x B._index))))
      (some A._index) (some A._columns)) := by
  have hgl : (gatherRows B._data (A._index.map (fun x => findPos x B._index))).length =
      A._index.length := by
    rw [gatherRows_length]
    simp
  have hrows : ∀ r ∈ elemAdd A.data
      (gatherRows B._data (A._index.map (fun x => findPos x B._index))),
      r.length = A._columns.length := by
    intro r hr
    refine elemAdd_row_length (fun s hs => data_row_length_of_wf A hwfA hs)
      (fun s hs => ?_) hr
    rw [hcols]
    exact gather_findPos_row_length B hwfB _ hs
  have hlen : (elemAdd A.data
      (gatherRows B._data (A._index.map (fun x => findPos x B._index)))).length =
      A._index.length := by
    rw [elemAdd_length, data_length_of_wf A hwfA, hgl]
    simp
  have hnc : ncols (elemAdd A.data
      (gatherRows B._data (A._index.map (fun x => findPos x B._index)))) =
      A._columns.length :=
    ncols_eq_of_rows (by rw [hlen]; exact hn) hrows
  refine ⟨?_, ?_, ?_⟩
  · rw [make_phys_length, hlen]
    rfl
  · intro r hr
    rw [make_phys] at hr
    rcases List.mem_append.mp hr with h | h
    · exact hrows r h
    · have : r = zeroRow (ncols (elemAdd A.data
          (gatherRows B._data (A._index.map (fun x => findPos x B._index))))) := by
        simpa using h
      rw [this, hnc]
      exact zeroRow_length _
  · rw [make_last, hnc]
    rfl

theorem add_result_row (A B : SparseFrame) (hwfA : WF A) (hwfB : WF B)
    {i : Nat} (hi : i < A._index.length)
    {t : Nat} (hfp : findPos (A._index.getD i 0) B._index = some t) :
    (elemAdd A.data
        (gatherRows B._data (A._index.map (fun x => findPos x B._index)))).getD i [] =
      List.zipWith (fun x y => x + y) (A.data.getD i []) (B.data.getD t []) := by
  have hlA : i < A.data.length := by
    rw [data_length_of_wf A hwfA]
    exact hi
  have hlG : i < (gatherRows B._data
      (A._index.map (fun x => findPos x B._index))).length := by
    rw [gatherRows_length]
    simpa using hi
  rw [elemAdd_getD hlA hlG]
  congr 1
  unfold gatherRows
  rw [List.map_map, getD_map_eq _ _ hi _ 0]
  simp only [Function.comp_apply, hfp]
  apply phys_getD_eq_data_getD
  rw [data_length_of_wf B hwfB]
  exact findPos_some_lt hfp

theorem frame_ext {f g : SparseFrame} (h1 : f._data = g._data)
    (h2 : f._index = g._index) (h3 : f._columns = g._columns) : f = g := by
  cases f
  cases g
  simp only at h1 h2 h3
  rw [h1, h2, h3]

theorem sort_index_data (F : SparseFrame) :
    F.sort_index.data = (argsort F._index).map (fun i => F._data.getD i []) := by
  show (SparseFrame.make ((argsort F._index).map (fun i => F._data.getD i []))
      (some ((argsort F._index).map (fun i => F._index.getD i 0))) none).data = _
  exact make_data _ _ _

theorem sort_index_index (F : SparseFrame) :
    F.sort_index._index = sortVals F._index := rfl

theorem sort_index_phys (F : SparseFrame) :
    F.sort_index._data =
      ((argsort F._index).map (fun i => F._data.getD i [])) ++
        [zeroRow (ncols ((argsort F._index).map (fun i => F._data.getD i [])))] := rfl

theorem sort_index_columns (F : SparseFrame) :
    F.sort_index._columns =
      defaultIndex (ncols ((argsort F._index).map (fun i => F._data.getD i []))) := rfl

/-- Row `j` of a sorted well-formed frame with unique labels is the logical
row whose label is the `j`-th sorted label. -/
theorem sort_row_at (F : SparseFrame) (hwf : WF F) (hnd : F._index.Nodup)
    {j : Nat} (hj : j < F._index.length) :
    ∃ p, findPos ((sortVals F._index).getD j 0) F._index = some p ∧
      F.sort_index.data.getD j [] = F.data.getD p [] := by
  have hj2 : j < (argsort F._index).length := by
    rw [argsort_length]
    exact hj
  have hmem : (argsort F._index).getD j 0 ∈ argsort F._index := by
    rw [List.getD_eq_getElem _ _ hj2]
    exact List.getElem_mem hj2
  refine ⟨(argsort F._index).getD j 0, ?_, ?_⟩
  · have hval : (sortVals F._index).getD j 0 =
        F._index.getD ((argsort F._index).getD j 0) 0 :=
      getD_map_eq _ _ hj2 _ 0
    rw [hval]
    exact findPos_of_nodup hnd (argsort_mem_lt hmem)
  · show (SparseFrame.make ((argsort F._index).map (fun i => F._data.getD i []))
        (some ((argsort F._index).map (fun i => F._index.getD i 0))) none).data.getD j [] = _
    rw [make_data, getD_map_eq _ _ hj2 _ 0]
    apply phys_getD_eq_data_getD
    rw [data_length_of_wf F hwf]
    exact argsort_mem_lt hmem

/-- C4 (counterexample): with the left-join alignment, `A.add(B)` keeps only
`A`'s labels and `B.add(A)` keeps only `B`'s, so on the disjoint singleton
frames the sorted results differ - `add` is not commutative up to ordering. -/
theorem add_commute_fails_on_different_labels :
    Except.map SparseFrame.sort_index (exA.add exB) ≠
      Except.map SparseFrame.sort_index (exB.add exA) := by
  decide

/-- C4 (amended): commutativity up to `sort_index` holds for well-formed
frames with identical column labels and equal row label SETS (unique labels
on both sides): `A.add(B).sort_index()` and `B.add(A).sort_index()` agree in
labels and matrix content.  With different label sets the left-join keeps
only the left operand's labels and commutativity fails. -/
theorem add_commutes_on_equal_label_sets (A B : SparseFrame)
    (hwfA : WF A) (hwfB : WF B) (hcols : A._columns = B._columns)
    (hndA : A._index.Nodup) (hndB : B._index.Nodup)
    (hset : ∀ x, x ∈ A._index ↔ x ∈ B._index) :
    Except.map SparseFrame.sort_index (A.add B) =
      Except.map SparseFrame.sort_index (B.add A) := by
  have hperm : A._index.Perm B._index :=
    (List.perm_ext_iff_of_nodup hndA hndB).mpr hset
  have hnlen : B._index.length = A._index.length := hperm.length_eq.symm
  rw [add_ok_of_wf A B hwfA hwfB hcols, add_ok_of_wf B A hwfB hwfA hcols.symm]
  simp only [Except.map]
  congr 1
  rcases Nat.eq_zero_or_pos A._index.length with hzero | hpos
  · have hAnil : A._index = [] := List.length_eq_zero.mp hzero
    have hBnil : B._index = [] := List.length_eq_zero.mp (by omega)
    unfold SparseFrame.sort_index
    rw [show (SparseFrame.make
        (elemAdd A.data (gatherRows B._data (A._index.map (fun x => findPos x B._index))))
        (some A._index) (some A._columns))._index = A._index from rfl]
    rw [show (SparseFrame.make
        (elemAdd B.data (gatherRows A._data (B._index.map (fun x => findPos x A._index))))
        (some B._index) (some B._columns))._index = B._index from rfl]
    rw [hAnil, hBnil]
    rfl
  · have hposB : 0 < B._index.length := by omega
    have hwfR1 := wf_add_result A B hwfA hwfB hcols hpos
    have hwfR2 := wf_add_result B A hwfB hwfA hcols.symm hposB
    have hv : sortVals A._index = sortVals B._index := sortVals_eq_of_perm hperm
    set R1 := SparseFrame.make
      (elemAdd A.data (gatherRows B._data (A._index.map (fun x => findPos x B._index))))
      (some A._index) (some A._columns) with hR1
    set R2 := SparseFrame.make
      (elemAdd B.data (gatherRows A._data (B._index.map (fun x => findPos x A._index))))
      (some B._index) (some B._columns) with hR2
    have hR1i : R1._index = A._index := rfl
    have hR2i : R2._index = B._index := rfl
    have hR1d : R1.data = elemAdd A.data
        (gatherRows B._data (A._index.map (fun x => findPos x B._index))) := by
      rw [hR1]
      exact make_data _ _ _
    have hR2d : R2.data = elemAdd B.data
        (gatherRows A._data (B._index.map (fun x => findPos x A._index))) := by
      rw [hR2]
      exact make_data _ _ _
    have hdata : R1.sort_index.data = R2.sort_index.data := by
      apply List.ext_getElem
      · rw [sort_index_data, sort_index_data, List.length_map, List.length_map,
          hR1i, hR2i, argsort_length, argsort_length, hnlen]
      · intro j hj1 hj2
        have hjA : j < A._index.length := by
          rw [sort_index_data, List.length_map, hR1i, argsort_length] at hj1
          exact hj1
        have hjB : j < B._index.length := by omega
        have e1 : R1.sort_index.data[j] = R1.sort_index.data.getD j [] :=
          (List.getD_eq_getElem _ _ hj1).symm
        have e2 : R2.sort_index.data[j] = R2.sort_index.data.getD j [] :=
          (List.getD_eq_getElem _ _ hj2).symm
        rw [e1, e2]
        obtain ⟨p, hfpA, hrow1⟩ := sort_row_at R1 hwfR1 hndA hjA
        obtain ⟨q, hfpB, hrow2⟩ := sort_row_at R2 hwfR2 hndB hjB
        rw [hR1i] at hfpA
        rw [hR2i] at hfpB
        rw [hrow1, hrow2]
        have hxv : (sortVals B._index).getD j 0 = (sortVals A._index).getD j 0 := by
          rw [hv]
        rw [hxv] at hfpB
        have hpA : A._index.getD p 0 = (sortVals A._index).getD j 0 :=
          findPos_some_getD hfpA
        have hqB : B._index.getD q 0 = (sortVals A._index).getD j 0 :=
          findPos_some_getD hfpB
        have hplt : p < A._index.length := findPos_some_lt hfpA
        have hqlt : q < B._index.length := findPos_some_lt hfpB
        have hinner1 : findPos (A._index.getD p 0) B._index = some q := by
          rw [hpA]
          exact hfpB
        have hinner2 : findPos (B._index.getD q 0) A._index = some p := by
          rw [hqB]
          exact hfpA
        have h1 := add_result_row A B hwfA hwfB hplt hinner1
        have h2 := add_result_row B A hwfB hwfA hqlt hinner2
        rw [hR1d, h1, hR2d, h2]
        exact zipAdd_comm _ _
    apply frame_ext
    · rw [sort_index_phys, sort_index_phys]
      have hg : (argsort R1._index).map (fun i => R1._data.getD i []) =
          (argsort R2._index).map (fun i => R2._data.getD i []) := by
        rw [← sort_index_data, ← sort_index_data]
        exact hdata
      rw [hg]
    · rw [sort_index_index, sort_index_index, hR1i, hR2i]
      exact hv
    · rw [sort_index_columns, sort_index_columns,
        ncols_sortGather R1 hwfR1 (by rw [hR1i]; exact hpos),
        ncols_sortGather R2 hwfR2 (by rw [hR2i]; exact hposB)]
      show defaultIndex A._columns.length = defaultIndex B._columns.length
      rw [hcols]

/-- C4 (witness): the amended theorem applied at two 2-row frames carrying
the same label set in different orders. -/
theorem add_commutes_on_equal_label_sets_witness :
    (WF (SparseFrame.make [[1], [3]] (some [0, 1]) (some [0])) ∧
      WF (SparseFrame.make [[5], [7]] (some [1, 0]) (some [0])) ∧
      (SparseFrame.make [[1], [3]] (some [0, 1]) (some [0]))._columns =
        (SparseFrame.make [[5], [7]] (some [1, 0]) (some [0]))._columns ∧
      (SparseFrame.make [[1], [3]] (some [0, 1]) (some [0]))._index.Nodup ∧
      (SparseFrame.make [[5], [7]] (some [1, 0]) (some [0]))._index.Nodup ∧
      (∀ x, x ∈ (SparseFrame.make [[1], [3]] (some [0, 1]) (some [0]))._index ↔
        x ∈ (SparseFrame.make [[5], [7]] (some [1, 0]) (some [0]))._index)) ∧
    Except.map SparseFrame.sort_index
        ((SparseFrame.make [[1], [3]] (some [0, 1]) (some [0])).add
          (SparseFrame.make [[5], [7]] (some [1, 0]) (some [0]))) =
      Except.map SparseFrame.sort_index
        ((SparseFrame.make [[5], [7]] (some [1, 0]) (some [0])).add
          (SparseFrame.make [[1], [3]] (some [0, 1]) (some [0]))) :=
  ⟨⟨by decide, by decide, by decide, by decide, by decide, by
      intro x
      show x ∈ ([0, 1] : List Int) ↔ x ∈ ([1, 0] : List Int)
      simp only [List.mem_cons, List.not_mem_nil, or_false]
      tauto⟩,
    add_commutes_on_equal_label_sets
      (SparseFrame.make [[1], [3]] (some [0, 1]) (some [0]))
      (SparseFrame.make [[5], [7]] (some [1, 0]) (some [0]))
      (by decide) (by decide) (by decide) (by decide) (by decide) (by
        intro x
        show x ∈ ([0, 1] : List Int) ↔ x ∈ ([1, 0] : List Int)
        simp only [List.mem_cons, List.not_mem_nil, or_false]
        tauto)⟩

/-! ### Groupby as a row-sum per distinct key -/

theorem groupRow_getD {v : Int} {cats : List Int} (hnd : cats.Nodup) {j : Nat}
    (hj : j < cats.length) :
    (groupRow cats v).getD j 0 = if cats.getD j 0 = v then 1 else 0 := by
  unfold groupRow
  rcases hfp : findPos v cats with _ | cd
  · have hv : v ∉ cats := findPos_eq_none_iff.mp hfp
    have hne : cats.getD j 0 ≠ v := by
      intro hcontra
      apply hv
      rw [← hcontra, List.getD_eq_getElem _ _ hj]
      exact List.getElem_mem hj
    rw [if_neg hne]
    show (zeroRow cats.length).getD j 0 = 0
    unfold zeroRow
    rw [List.getD_eq_getElem _ _ (by simpa using hj)]
    simp
  · have hcd := findPos_some_lt hfp
    have hcv := findPos_some_getD hfp
    show (unitRow cats.length cd).getD j 0 = _
    rw [unitRow_getD hj]
    have hiff : j = cd ↔ cats.getD j 0 = v := by
      rw [← hcv, List.getD_eq_getElem _ _ hj, List.getD_eq_getElem _ _ hcd]
      constructor
      · intro h
        subst h
        rfl
      · intro h
        exact hnd.getElem_inj_iff.mp h
    by_cases hjc : j = cd
    · rw [if_pos hjc, if_pos (hiff.mp hjc)]
    · rw [if_neg hjc, if_neg (fun hcontra => hjc (hiff.mpr hcontra))]

theorem colOf_matmulN {a gm : Mat} {g j : Nat} (hj : j < g) :
    colOf (matmulN a gm g) j = a.map (fun r => dot r (colOf gm j)) := by
  unfold colOf matmulN
  rw [List.map_map]
  apply List.map_congr_left
  intro r _
  simp only [Function.comp_apply]
  exact getD_range_map _ _ hj

theorem groupbyCore_data (sf : SparseFrame) (b : List Int) :
    (groupbyCore sf b).data =
      transposeN (uniqueSorted ((argsort b).map (fun i => b.getD i 0))).length
        (matmulN
          (transposeN (ncols sf._data)
            ((argsort b).map (fun i => sf._data.getD i [])))
          (_create_group_matrix ((argsort b).map (fun i => b.getD i 0)))
          (uniqueSorted ((argsort b).map (fun i => b.getD i 0))).length) := by
  unfold groupbyCore
  exact make_data _ _ _

/-- Core column computation: the dot product of column `c` of the gathered
rows with column `j` of the membership matrix is the sum of entry `c` over
exactly the logical rows whose key equals the `j`-th distinct key. -/
theorem dot_group_col (sf : SparseFrame) (b : List Int) (hwf : WF sf)
    (hlen : b.length = sf._index.length) {c j : Nat}
    (hj : j < (uniqueSorted b).length) :
    dot (colOf ((argsort b).map (fun i => sf._data.getD i [])) c)
        (colOf (_create_group_matrix ((argsort b).map (fun i => b.getD i 0))) j) =
      ((rowsWithKey b sf.data ((uniqueSorted b).getD j 0)).map
        (fun r => r.getD c 0)).sum := by
  have hcats : uniqueSorted ((argsort b).map (fun i => b.getD i 0)) = uniqueSorted b :=
    uniqueSorted_of_perm (sortVals_perm b)
  have hdl : sf.data.length = b.length := by
    rw [data_length_of_wf sf hwf, hlen]
  -- left side: a single sum over the argsort positions
  unfold colOf _create_group_matrix
  rw [hcats]
  rw [List.map_map, List.map_map, List.map_map]
  rw [dot_map_map]
  trans ((argsort b).map (fun i =>
    if (uniqueSorted b).getD j 0 = b.getD i 0
    then (sf._data.getD i []).getD c 0 else 0)).sum
  case _ =>
    congr 1
    apply List.map_congr_left
    intro i _
    simp only [Function.comp_apply]
    rw [groupRow_getD (uniqueSorted_nodup b) hj]
    rw [mul_ite, mul_one, mul_zero]
  -- permutation: sum over argsort positions = sum over all positions
  have hperm := (argsort_perm b).map (fun i =>
    if (uniqueSorted b).getD j 0 = b.getD i 0
    then (sf._data.getD i []).getD c 0 else 0)
  rw [hperm.sum_eq]
  -- physical rows below the sentinel are the logical rows
  have hphys : (List.range b.length).map (fun i =>
      if (uniqueSorted b).getD j 0 = b.getD i 0
      then (sf._data.getD i []).getD c 0 else 0) =
      (List.range b.length).map (fun i =>
        if (uniqueSorted b).getD j 0 = b.getD i 0
        then (sf.data.getD i []).getD c 0 else 0) := by
    apply List.map_congr_left
    intro i hi
    rw [phys_getD_eq_data_getD sf i (by rw [hdl]; exact List.mem_range.mp hi)]
  rw [hphys]
  -- right side: the filtered sum as a conditional sum over the zip
  unfold rowsWithKey
  rw [List.map_map, sum_map_filter]
  congr 1
  apply List.ext_getElem
  · rw [List.length_map, List.length_map, List.length_range, List.length_zip, hdl]
    simp
  · intro i hi1 hi2
    have hiN : i < b.length := by simpa using hi1
    have hizip : i < (b.zip sf.data).length := by
      rw [List.length_zip, hdl]
      simpa using hiN
    rw [List.getElem_map, List.getElem_map, List.getElem_range, List.getElem_zip]
    simp only [Function.comp_apply]
    have hb : b.getD i 0 = b[i] := List.getD_eq_getElem _ _ hiN
    have hdi : i < sf.data.length := by
      rw [hdl]
      exact hiN
    have hd : sf.data.getD i [] = sf.data[i] :=
      List.getD_eq_getElem _ _ hdi
    by_cases hcond : (uniqueSorted b).getD j 0 = b.getD i 0
    · rw [if_pos hcond, if_pos, hd]
      show (b[i] == (uniqueSorted b).getD j 0) = true
      rw [beq_iff_eq, ← hb, hcond]
    · rw [if_neg hcond, if_neg]
      intro hcontra
      apply hcond
      have := beq_iff_eq.mp hcontra
      rw [hb, this]

/-- C3: `groupby` (with an explicit key of the right length, or the frame's
own row labels) produces one row per distinct key value, indexed by the
sorted distinct keys, with the input's columns, and each output row is the
entrywise sum of exactly the input rows carrying that key - computed as
`(Mᵀ·G)ᵀ` with the 0/1 membership matrix `G`. -/
theorem groupby_sums_rows (sf : SparseFrame) (b : List Int)
    (hwf : WF sf) (hlen : b.length = sf._index.length) :
    sf.groupby (some b) = Except.ok (groupbyCore sf b) ∧
    sf.groupby none = Except.ok (groupbyCore sf sf._index) ∧
    (groupbyCore sf b)._index = uniqueSorted b ∧
    (groupbyCore sf b)._columns = sf._columns ∧
    (groupbyCore sf b).data = (uniqueSorted b).map
      (fun u => sumRowsK sf._columns.length (rowsWithKey b sf.data u)) := by
  have hcats : uniqueSorted ((argsort b).map (fun i => b.getD i 0)) = uniqueSorted b :=
    uniqueSorted_of_perm (sortVals_perm b)
  have hK : ncols sf._data = sf._columns.length := ncols_phys_of_wf sf hwf
  refine ⟨?_, rfl, rfl, rfl, ?_⟩
  · simp only [SparseFrame.groupby]
    rw [if_pos (by rw [data_length_of_wf sf hwf]; exact hlen)]
  · rw [groupbyCore_data, hcats, hK]
    apply List.ext_getElem
    · unfold transposeN
      simp
    · intro j hj1 hj2
      have hjg : j < (uniqueSorted b).length := by simpa using hj2
      unfold transposeN
      rw [List.getElem_map, List.getElem_range, List.getElem_map]
      rw [colOf_matmulN hjg]
      rw [List.map_map]
      unfold sumRowsK
      apply List.map_congr_left
      intro c hc
      simp only [Function.comp_apply]
      rw [dot_group_col sf b hwf hlen hjg]
      rw [List.getD_eq_getElem _ _ hjg]

/-- C3 (witness): the theorem applied at a 3-row frame grouped by the key
array `[7, 5, 7]` (and, for the `by=None` conjunct, by its own labels). -/
theorem groupby_sums_rows_witness :
    (WF exS3 ∧ ([7, 5, 7] : List Int).length = exS3._index.length) ∧
    (exS3.groupby (some [7, 5, 7]) = Except.ok (groupbyCore exS3 [7, 5, 7]) ∧
      exS3.groupby none = Except.ok (groupbyCore exS3 exS3._index) ∧
      (groupbyCore exS3 [7, 5, 7])._index = uniqueSorted [7, 5, 7] ∧
      (groupbyCore exS3 [7, 5, 7])._columns = exS3._columns ∧
      (groupbyCore exS3 [7, 5, 7]).data = (uniqueSorted [7, 5, 7]).map
        (fun u => sumRowsK exS3._columns.length
          (rowsWithKey [7, 5, 7] exS3.data u))) :=
  ⟨⟨by decide, by decide⟩, groupby_sums_rows exS3 [7, 5, 7] (by decide) (by decide)⟩

end Sparsity
